import Mathlib

/-!
Verification of the XML-against-DTD structural validator
(`src/services/geminiService.ts`).

Texts are modelled as `List Char`.  The JavaScript regular expression
produced by `convertSpecToRegex` is modelled by the sequence of pattern
chunks the translator emits (group-open, group-close, alternation,
quantifiers, and sentinel-prefixed escaped name literals); parsing that
chunk sequence mirrors what `new RegExp` does with the emitted pattern
string, with a parse failure standing for the `SyntaxError` the
constructor throws.  Because every name literal is escaped by the source
(`replace(/[.*+?^${}()|[\]\\]/g, '\\$&')`), a name chunk always denotes
the literal character sequence of the sentinel followed by the name, which
is exactly how the chunk model interprets it.  Matching semantics reuse
Mathlib regular expressions over `Char`.

The JavaScript `test` call is unanchored search; the translator puts `^`
at the very start and `$` at the very end of the pattern, and since `|`
has lowest precedence in a JavaScript regular expression, with several
top-level alternatives only the first is start-anchored and only the last
is end-anchored.  `jsRegexTest` reproduces exactly that.
-/

namespace XmlValidator

/-- The reserved delimiter `\x01` put in front of every element-name token. -/
def sentinel : Char := Char.ofNat 1

/-- ASCII instances of the JavaScript `\s` class (space, tab, LF, VT, FF, CR);
used for `trim()` and `replace(/\s+/g, ...)`. -/
def isJsSpace (c : Char) : Bool :=
  c = ' ' || c = Char.ofNat 9 || c = Char.ofNat 10 || c = Char.ofNat 11 ||
    c = Char.ofNat 12 || c = Char.ofNat 13

/-- `[\w\-:.]` of the declaration regex, identical to the scanner's
`[a-zA-Z0-9_\-.:]`. -/
def isNameChar (c : Char) : Bool :=
  c.isAlpha || c.isDigit || c = '_' || c = '-' || c = ':' || c = '.'

/-- JavaScript `String.prototype.trim` (ASCII fragment). -/
def jsTrim (s : List Char) : List Char :=
  ((s.dropWhile isJsSpace).reverse.dropWhile isJsSpace).reverse

/-- `replace(/\s+/g, '')`: delete every whitespace character. -/
def removeWs (s : List Char) : List Char :=
  s.filter (fun c => !isJsSpace c)

theorem length_dropWhile_le (p : Char → Bool) (l : List Char) :
    (l.dropWhile p).length ≤ l.length := by
  induction l with
  | nil => simp [List.dropWhile]
  | cons c cs ih =>
    by_cases h : p c
    · simp [List.dropWhile, h]; omega
    · simp [List.dropWhile, h]

/-- `replace(/\s+/g, ' ')`: collapse every whitespace run to a single
space (used on `rawSpec` for the CHILDREN diagnostic text); `inRun` says
whether the previous character was part of a run already replaced. -/
def collapseWsAux (inRun : Bool) : List Char → List Char
  | [] => []
  | c :: rest =>
    if isJsSpace c then
      if inRun then collapseWsAux true rest
      else ' ' :: collapseWsAux true rest
    else c :: collapseWsAux false rest

def collapseWs (s : List Char) : List Char :=
  collapseWsAux false s

/-- The DTD content-spec delimiter set `( ) , | * + ?` of
`split(/([(),|*+?])/)`. -/
def isDelim (c : Char) : Bool :=
  c = '(' || c = ')' || c = ',' || c = '|' || c = '*' || c = '+' || c = '?'

/-- JavaScript `split` keeping the captured delimiters: pieces between
delimiters (possibly empty) interleaved with singleton delimiter tokens. -/
def splitTokensAux (acc : List Char) : List Char → List (List Char)
  | [] => [acc.reverse]
  | c :: rest =>
    if isDelim c then acc.reverse :: [c] :: splitTokensAux [] rest
    else splitTokensAux (c :: acc) rest

def splitTokens (s : List Char) : List (List Char) :=
  splitTokensAux [] s

/-- A chunk of the emitted pattern string: `(` ↦ `(?:`, `)` ↦ `)`, the
pass-through operators, and the sentinel-prefixed escaped name literal.
(The `,` token of the spec emits the empty string and thus no chunk.) -/
inductive Chunk where
  | gopen : Chunk
  | gclose : Chunk
  | alt : Chunk
  | star : Chunk
  | plus : Chunk
  | quest : Chunk
  | atom : List Char → Chunk
deriving DecidableEq, Repr

/-- The translation loop of `convertSpecToRegex`, one chunk per non-empty
token (`,` contributes nothing). -/
def tokenChunks : List (List Char) → List Chunk
  | [] => []
  | t :: rest =>
    match t with
    | [] => tokenChunks rest
    | [c] =>
      if c = '(' then Chunk.gopen :: tokenChunks rest
      else if c = ')' then Chunk.gclose :: tokenChunks rest
      else if c = ',' then tokenChunks rest
      else if c = '|' then Chunk.alt :: tokenChunks rest
      else if c = '*' then Chunk.star :: tokenChunks rest
      else if c = '+' then Chunk.plus :: tokenChunks rest
      else if c = '?' then Chunk.quest :: tokenChunks rest
      else Chunk.atom [c] :: tokenChunks rest
    | c :: cs => Chunk.atom (c :: cs) :: tokenChunks rest

/-- A regular expression whose atoms are whole element names; the chunk
parser produces these, and `compileTok` spells out the character-level
pattern each atom stands for. -/
abbrev TokRE := RegularExpression (List Char)

/-- Fold a reversed factor list into the concatenation it denotes. -/
def seqOf (factorsRev : List TokRE) : TokRE :=
  match factorsRev.reverse with
  | [] => RegularExpression.epsilon
  | f :: fs => fs.foldl (fun a b => RegularExpression.comp a b) f

/-- Fold reversed finished alternatives plus the final one into the
alternation they denote. -/
def altsList (altsRev : List TokRE) (last : TokRE) : List TokRE :=
  (last :: altsRev).reverse

/-- Parser level: finished alternatives (reversed), current factors
(reversed), and the quantifier state of the last factor
(0 none, 1 quantified, 2 lazy marker consumed). -/
structure PLevel where
  alts : List TokRE
  factors : List TokRE
  quantState : Nat

/-- One chunk of `new RegExp` parsing.  Returns `none` exactly where the
constructor raises a `SyntaxError`: a quantifier with nothing to repeat,
a doubled quantifier (beyond the single lazy `?`), or an unmatched `)`. -/
def stepChunk : PLevel × List PLevel → Chunk → Option (PLevel × List PLevel)
  | (cur, stack), Chunk.atom n =>
    some ({ cur with
              factors := RegularExpression.char n :: cur.factors
              quantState := 0 }, stack)
  | (cur, stack), Chunk.star =>
    match cur.factors with
    | [] => none
    | f :: fs =>
      if cur.quantState = 0 then
        some ({ cur with
                  factors := RegularExpression.star f :: fs
                  quantState := 1 }, stack)
      else none
  | (cur, stack), Chunk.plus =>
    match cur.factors with
    | [] => none
    | f :: fs =>
      if cur.quantState = 0 then
        some ({ cur with
                  factors := RegularExpression.comp f (RegularExpression.star f) :: fs
                  quantState := 1 }, stack)
      else none
  | (cur, stack), Chunk.quest =>
    match cur.factors with
    | [] => none
    | f :: fs =>
      if cur.quantState = 0 then
        some ({ cur with
                  factors := RegularExpression.plus f RegularExpression.epsilon :: fs
                  quantState := 1 }, stack)
      else if cur.quantState = 1 then
        some ({ cur with quantState := 2 }, stack)
      else none
  | (cur, stack), Chunk.alt =>
    some ({ alts := seqOf cur.factors :: cur.alts
            factors := []
            quantState := 0 }, stack)
  | (cur, stack), Chunk.gopen =>
    some (⟨[], [], 0⟩, cur :: stack)
  | (cur, stack), Chunk.gclose =>
    match stack with
    | [] => none
    | top :: rest =>
      let inner := (altsList cur.alts (seqOf cur.factors)).foldl
        (fun a b => RegularExpression.plus a b) RegularExpression.zero
      some ({ top with factors := inner :: top.factors, quantState := 0 }, rest)

/-- Parse the whole emitted pattern, yielding the top-level alternatives
(`none` for a `SyntaxError`, e.g. an unterminated group). -/
def parseChunks (cs : List Chunk) : Option (List TokRE) :=
  match cs.foldlM stepChunk ((⟨[], [], 0⟩ : PLevel), ([] : List PLevel)) with
  | none => none
  | some (_, _ :: _) => none
  | some (cur, []) => some (altsList cur.alts (seqOf cur.factors))

/-- `convertSpecToRegex`: remove all whitespace, tokenize on the DTD
delimiters, translate token-by-token, and let the regex engine parse the
result; `none` models the thrown `SyntaxError` the caller catches. -/
def convertSpecToRegex (spec : List Char) : Option (List TokRE) :=
  parseChunks (tokenChunks (splitTokens (removeWs spec)))

/-- Character-level pattern denoted by one sentinel-prefixed name token. -/
def encodeName (n : List Char) : List Char :=
  sentinel :: n

/-- The subject string `\x01child1\x01child2...` the validator builds from
the direct child element tags. -/
def childSignature (cs : List (List Char)) : List Char :=
  (cs.map encodeName).flatten

/-- The character-level regular expression of a literal string. -/
def strRE (s : List Char) : RegularExpression Char :=
  s.foldr (fun c r => RegularExpression.comp (RegularExpression.char c) r)
    RegularExpression.epsilon

/-- Spell a token-level regular expression out into the character-level
pattern the emitted string denotes. -/
def compileTok : TokRE → RegularExpression Char
  | RegularExpression.zero => RegularExpression.zero
  | RegularExpression.epsilon => RegularExpression.epsilon
  | RegularExpression.char n => strRE (encodeName n)
  | RegularExpression.plus p q => RegularExpression.plus (compileTok p) (compileTok q)
  | RegularExpression.comp p q => RegularExpression.comp (compileTok p) (compileTok q)
  | RegularExpression.star p => RegularExpression.star (compileTok p)

/-- Match one top-level alternative against the subject under its anchor
flags: the leading `^` binds only to the first alternative and the
trailing `$` only to the last, so an unanchored side may skip characters
(the unanchored-search semantics of `RegExp.prototype.test`). -/
def altTest (anchorL anchorR : Bool) (r : RegularExpression Char)
    (s : List Char) : Bool :=
  if anchorL && anchorR then r.rmatch s
  else if anchorL then s.inits.any (fun v => r.rmatch v)
  else if anchorR then s.tails.any (fun v => r.rmatch v)
  else s.tails.any (fun t => t.inits.any (fun v => r.rmatch v))

def jsRegexTestAux (isFirst : Bool) : List TokRE → List Char → Bool
  | [], _ => false
  | [r], s => altTest isFirst true (compileTok r) s
  | r :: r2 :: rest, s =>
    altTest isFirst false (compileTok r) s ||
      jsRegexTestAux false (r2 :: rest) s

/-- `RegExp.prototype.test` on the anchored pattern built by
`convertSpecToRegex`. -/
def jsRegexTest (alts : List TokRE) (s : List Char) : Bool :=
  jsRegexTestAux true alts s

/-! ## The DTD compiler (`parseDtd`) -/

/-- Split on `/\r\n|\r|\n/`, scanning left to right (so a CRLF pair counts
as one separator). -/
def splitLinesRN : List Char → List (List Char) :=
  go []
where
  go (acc : List Char) : List Char → List (List Char)
    | [] => [acc.reverse]
    | [c] =>
      if c = Char.ofNat 13 || c = Char.ofNat 10 then [acc.reverse, []]
      else [(c :: acc).reverse]
    | c :: c2 :: rest2 =>
      if c = Char.ofNat 13 then
        if c2 = Char.ofNat 10 then acc.reverse :: go [] rest2
        else acc.reverse :: go [] (c2 :: rest2)
      else if c = Char.ofNat 10 then acc.reverse :: go [] (c2 :: rest2)
      else go (c :: acc) (c2 :: rest2)

/-- 1-based line number of a character offset:
`substring(0, index).split(/\r\n|\r|\n/).length`. -/
def lineOfIndex (text : List Char) (index : Nat) : Nat :=
  (splitLinesRN (text.take index)).length

/-- Lazy search for the closing `--` of a spec comment: the number of
characters before the first `--`, provided no line terminator intervenes
(the `.` of `/--.*?--/` does not match line terminators). -/
def findCommentClose : List Char → Option Nat
  | '-' :: '-' :: _ => some 0
  | c :: rest =>
    if c = Char.ofNat 13 || c = Char.ofNat 10 then none
    else (findCommentClose rest).map (· + 1)
  | [] => none

/-- `spec.replace(/--.*?--/g, '')`: delete every minimal `--...--` run that
closes on the same line; an opener with no closer is kept verbatim.  The
fuel (one unit per scan position) makes the scan structurally recursive;
`stripComments` supplies enough of it for the whole input. -/
def stripCommentsAux : Nat → List Char → List Char
  | 0, s => s
  | _ + 1, [] => []
  | fuel + 1, '-' :: '-' :: rest =>
    match findCommentClose rest with
    | some k => stripCommentsAux fuel (rest.drop (k + 2))
    | none => '-' :: stripCommentsAux fuel ('-' :: rest)
  | fuel + 1, c :: rest => c :: stripCommentsAux fuel rest

def stripComments (s : List Char) : List Char :=
  stripCommentsAux s.length s

/-- Drop a literal character sequence from the head of the input. -/
def dropLit : List Char → List Char → Option (List Char)
  | [], s => some s
  | _ :: _, [] => none
  | l :: ls, c :: cs => if c = l then dropLit ls cs else none

/-- Offset of the first `>` in the input, if any. -/
def findGt : List Char → Option Nat
  | [] => none
  | c :: rest =>
    if c = '>' then some 0 else (findGt rest).map (· + 1)

/-- Attempt to match `/<!ELEMENT\s+([\w\-:.]+)\s+([^>]+)>/` with the match
start at the head of the input.  Returns the name capture, the spec
capture, and the total match length.  The only live backtracking point of
that pattern is between the second `\s+` and `[^>]+` (name characters and
whitespace are disjoint, and `[^>]+` greedily stops at the first `>`), so
the match is computed directly: if the first `>` comes after at least one
non-whitespace character past the whitespace run, the spec runs up to it;
otherwise the whitespace run cedes its final character to `[^>]+`. -/
def tryElementAt (s : List Char) : Option (List Char × List Char × Nat) :=
  match dropLit "<!ELEMENT".data s with
  | none => none
  | some r0 =>
    let ws1 := r0.takeWhile isJsSpace
    if ws1.isEmpty then none
    else
      let r1 := r0.dropWhile isJsSpace
      let nm := r1.takeWhile isNameChar
      if nm.isEmpty then none
      else
        let r2 := r1.dropWhile isNameChar
        let w := (r2.takeWhile isJsSpace).length
        if w = 0 then none
        else
          match findGt r2 with
          | none => none
          | some g =>
            if g = 0 then none
            else
              let specStart := if w < g then w else g - 1
              if specStart = 0 then none
              else
                let spec := (r2.take g).drop specStart
                some (nm, spec,
                  "<!ELEMENT".length + ws1.length + nm.length + g + 1)

/-- The `elementRegex.exec` loop: repeated unanchored search; after a match
the scan resumes past it, after a failed attempt it resumes one character
further on. -/
def extractElementsAux (fuel : Nat) (s : List Char) (pos : Nat)
    (text : List Char) : List (List Char × List Char × Nat) :=
  match fuel with
  | 0 => []
  | fuel + 1 =>
    match s with
    | [] => []
    | _ :: tail =>
      match tryElementAt s with
      | some (nm, spec, len) =>
        (nm, spec, lineOfIndex text pos) ::
          extractElementsAux fuel (s.drop len) (pos + len) text
      | none => extractElementsAux fuel tail (pos + 1) text

/-- Every `<!ELEMENT name spec>` declaration of the DTD text, with its
1-based starting line, in scan order. -/
def extractElements (dtd : List Char) : List (List Char × List Char × Nat) :=
  extractElementsAux (dtd.length + 1) dtd 0 dtd

inductive ContentType where
  | EMPTY : ContentType
  | ANY : ContentType
  | PCDATA : ContentType
  | MIXED : ContentType
  | CHILDREN : ContentType
deriving DecidableEq, Repr

/-- The compiled definition of one element declaration. -/
structure DtdDefinition where
  type : ContentType
  allowedElements : List (List Char)
  regex : Option (List TokRE)
  rawSpec : List Char
  line : Nat

/-- Split on `|` (JavaScript `split('|')`: always one more part than
separators, parts may be empty). -/
def splitBar : List Char → List (List Char) :=
  go []
where
  go (acc : List Char) : List Char → List (List Char)
    | [] => [acc.reverse]
    | c :: rest =>
      if c = '|' then acc.reverse :: go [] rest
      else go (c :: acc) rest

/-- Keep the first occurrence of each entry (the `Set` constructor
preserves insertion order and drops repeats). -/
def dedupFirstAux (seen : List (List Char)) : List (List Char) →
    List (List Char)
  | [] => []
  | x :: rest =>
    if x ∈ seen then dedupFirstAux seen rest
    else x :: dedupFirstAux (x :: seen) rest

def dedupFirst (l : List (List Char)) : List (List Char) :=
  dedupFirstAux [] l

theorem mem_dedupFirstAux (x : List Char) :
    ∀ (l seen : List (List Char)),
      x ∈ dedupFirstAux seen l ↔ x ∈ l ∧ x ∉ seen := by
  intro l
  induction l with
  | nil => intro seen; simp [dedupFirstAux]
  | cons y ys ih =>
    intro seen
    by_cases hy : y ∈ seen
    · rw [show dedupFirstAux seen (y :: ys) = dedupFirstAux seen ys by
        simp [dedupFirstAux, hy], ih]
      simp only [List.mem_cons]
      constructor
      · rintro ⟨h1, h2⟩
        exact ⟨Or.inr h1, h2⟩
      · rintro ⟨h1 | h1, h2⟩
        · exact absurd (h1 ▸ hy) h2
        · exact ⟨h1, h2⟩
    · rw [show dedupFirstAux seen (y :: ys) = y :: dedupFirstAux (y :: seen) ys
        by simp [dedupFirstAux, hy]]
      simp only [List.mem_cons, ih]
      constructor
      · rintro (rfl | ⟨h1, h2⟩)
        · exact ⟨Or.inl rfl, hy⟩
        · refine ⟨Or.inr h1, fun hx => h2 ?_⟩
          simp [hx]
      · rintro ⟨rfl | h1, h2⟩
        · exact Or.inl rfl
        · by_cases hxy : x = y
          · exact Or.inl hxy
          · refine Or.inr ⟨h1, ?_⟩
            simp [hxy, h2]

theorem mem_dedupFirst (x : List Char) (l : List (List Char)) :
    x ∈ dedupFirst l ↔ x ∈ l := by
  simp [dedupFirst, mem_dedupFirstAux]

/-- `replace(/^\(#PCDATA\|/, '')` then `replace(/\)\*?$/, '')` on the
whitespace-free MIXED spec. -/
def mixedContent (clean : List Char) : List Char :=
  let afterHead :=
    match dropLit "(#PCDATA|".data clean with
    | some rest => rest
    | none => clean
  if ")*".data.isSuffixOf afterHead then afterHead.dropLast.dropLast
  else if ")".data.isSuffixOf afterHead then afterHead.dropLast
  else afterHead

/-- The per-declaration body of the `parseDtd` loop: trim, strip spec
comments, classify on the whitespace-free form, and for element content
compile the matcher, degrading to `ANY` when compilation throws. -/
def buildDef (rawMatch : List Char) (line : Nat) : DtdDefinition :=
  let spec := stripComments (jsTrim rawMatch)
  let cleanSpec := removeWs spec
  if cleanSpec = "EMPTY".data then
    ⟨ContentType.EMPTY, [], none, spec, line⟩
  else if cleanSpec = "ANY".data then
    ⟨ContentType.ANY, [], none, spec, line⟩
  else if cleanSpec = "(#PCDATA)".data then
    ⟨ContentType.PCDATA, [], none, spec, line⟩
  else if "(#PCDATA".data.isPrefixOf cleanSpec then
    ⟨ContentType.MIXED, dedupFirst (splitBar (mixedContent cleanSpec)), none,
      spec, line⟩
  else
    match convertSpecToRegex spec with
    | some pat => ⟨ContentType.CHILDREN, [], some pat, spec, line⟩
    | none => ⟨ContentType.ANY, [], none, spec, line⟩

/-- `parseDtd`: one definition per extracted declaration, in scan order
(the `Map` keeps the last `set` for a repeated name). -/
def parseDtd (dtd : List Char) : List (List Char × DtdDefinition) :=
  (extractElements dtd).map (fun d => (d.1, buildDef d.2.1 d.2.2))

/-- `definitions.get(tagName)`: the last binding wins, as `Map.set`
overwrites. -/
def dtdLookup (defs : List (List Char × DtdDefinition)) (name : List Char) :
    Option DtdDefinition :=
  (defs.reverse.find? (fun p => p.1 = name)).map (fun p => p.2)

/-! ## The document tree and the structural validator (`validateNode`) -/

/-- A parsed element node: tag name, the line resolved for it by the
correlator (`lineMap.get(node)`, `none` when the node was left unmapped),
its child elements in document order, and the concatenated text content of
its direct text-node children.  The `ElementLineMap`, keyed on node
identity in the source, is embedded by annotating each tree position. -/
inductive Node where
  | mk : List Char → Option Nat → List Node → List Char → Node

def Node.tagName : Node → List Char
  | .mk t _ _ _ => t

def Node.line : Node → Option Nat
  | .mk _ l _ _ => l

def Node.children : Node → List Node
  | .mk _ _ cs _ => cs

def Node.textContent : Node → List Char
  | .mk _ _ _ tx => tx

/-- `lineMap.get(node) || '?'` rendered for the message (`0` is falsy in
JavaScript, so it would also print as `?`; the correlator never produces
it). -/
def lineText : Option Nat → List Char
  | some n => if n = 0 then "?".data else (Nat.repr n).data
  | none => "?".data

/-- The `[XML: <line>]` and conditional `[DTD: <line>]` location markers
put in front of every per-node diagnostic (`if (dtdLine)` is a falsy test,
so a zero line would also suppress the marker). -/
def diagMark (xmlLine : Option Nat) (dtdDef : Option DtdDefinition) :
    List Char :=
  "[XML: ".data ++ lineText xmlLine ++ "]".data ++
    (match dtdDef with
     | some d =>
       if d.line = 0 then [] else " [DTD: ".data ++ (Nat.repr d.line).data ++ "]".data
     | none => [])

def joinComma : List (List Char) → List Char
  | [] => []
  | [x] => x
  | x :: y :: rest => x ++ ", ".data ++ joinComma (y :: rest)

/-- The diagnostics the switch statement emits for one node (not counting
the undeclared-element case and before recursing into the children). -/
def ownTypeErrors (mark : List Char) (tag : List Char) (d : DtdDefinition)
    (children : List Node) (textContent : List Char) : List (List Char) :=
  let hasText := (jsTrim textContent).length > 0
  match d.type with
  | ContentType.EMPTY =>
    if children.length > 0 || hasText then
      [mark ++ " Element <".data ++ tag ++
        "> is declared EMPTY but contains content.".data]
    else []
  | ContentType.PCDATA =>
    if children.length > 0 then
      [mark ++ " Element <".data ++ tag ++
        "> is declared (#PCDATA) but contains child elements.".data]
    else []
  | ContentType.MIXED =>
    children.filterMap (fun c =>
      if d.allowedElements.contains c.tagName then none
      else some (mark ++ " Element <".data ++ tag ++
        "> contains unexpected child <".data ++ c.tagName ++
        ">. Allowed mixed content: ".data ++ joinComma d.allowedElements ++
        ".".data))
  | ContentType.CHILDREN =>
    (if hasText then
      [mark ++ " Element <".data ++ tag ++
        "> has element-only content definition but contains text data: \"".data ++
        (jsTrim textContent).take 20 ++ "...\"".data]
    else []) ++
    (match d.regex with
     | some pat =>
       if jsRegexTest pat (childSignature (children.map Node.tagName)) then []
       else
         [mark ++ " Element <".data ++ tag ++
           "> has invalid content structure.\nFound children: [".data ++
           (if children.isEmpty then "None".data
            else joinComma (children.map Node.tagName)) ++
           "]\nExpected DTD sequence: ".data ++ collapseWs d.rawSpec]
     | none => [])
  | ContentType.ANY => []

/-- The diagnostics `validateNode` emits for the node itself, before any
recursion: the undeclared-element message, or the content checks of the
matching definition. -/
def nodeOwnDiags (defs : List (List Char × DtdDefinition)) (n : Node) :
    List (List Char) :=
  let mark := diagMark n.line (dtdLookup defs n.tagName)
  match dtdLookup defs n.tagName with
  | none =>
    [mark ++ " Element <".data ++ n.tagName ++
      "> is used in XML but not defined in DTD.".data]
  | some d => ownTypeErrors mark n.tagName d n.children n.textContent

mutual

/-- `validateNode`: the node's own diagnostics followed by the recursion
over its child elements; an undeclared element reports once and does not
recurse.  (`validateNodeList` is the `for`-loop over the children.) -/
def validateNode (defs : List (List Char × DtdDefinition)) : Node →
    List (List Char)
  | Node.mk tag line children textContent =>
    match dtdLookup defs tag with
    | none => nodeOwnDiags defs (Node.mk tag line children textContent)
    | some _ =>
      nodeOwnDiags defs (Node.mk tag line children textContent) ++
        validateNodeList defs children

def validateNodeList (defs : List (List Char × DtdDefinition)) :
    List Node → List (List Char)
  | [] => []
  | n :: ns => validateNode defs n ++ validateNodeList defs ns

end

theorem validateNodeList_flatMap (defs : List (List Char × DtdDefinition))
    (ns : List Node) :
    validateNodeList defs ns = ns.flatMap (validateNode defs) := by
  induction ns with
  | nil => rfl
  | cons n ns ih => simp [validateNodeList, ih]

/-! ## The element-to-line correlator (`mapElementLines`) -/

/-- The character offset at which each line begins, assuming one character
per line break (`charCount += line.length + 1`). -/
def lineOffsets : List (List Char) → List Nat :=
  go 0
where
  go (charCount : Nat) : List (List Char) → List Nat
    | [] => []
    | l :: ls => charCount :: go (charCount + l.length + 1) ls

/-- The lookup loop of `mapElementLines`: the last line whose recorded
start offset is at most the match index (starting from `line = 1` and
breaking at the first larger offset). -/
def lineForOffset (offs : List Nat) (index : Nat) : Nat :=
  go 1 1 offs
where
  go (i : Nat) (line : Nat) : List Nat → Nat
    | [] => line
    | o :: os => if index ≥ o then go (i + 1) i os else line

/-- Number of characters before the first occurrence of the literal
sequence, if it occurs. -/
def findLit (lit : List Char) : List Char → Option Nat
  | [] => if lit.isEmpty then some 0 else none
  | c :: rest =>
    if dropLit lit (c :: rest) |>.isSome then some 0
    else (findLit lit rest).map (· + 1)

theorem dropLit_length {lit s r : List Char} (h : dropLit lit s = some r) :
    s.length = lit.length + r.length := by
  induction lit generalizing s with
  | nil => simp [dropLit] at h; simp [h]
  | cons l ls ih =>
    cases s with
    | nil => simp [dropLit] at h
    | cons c cs =>
      simp only [dropLit] at h
      split at h
      · have := ih h
        simp at this ⊢
        omega
      · exact absurd h (by simp)

/-- Overwrite the span of every block opened by `opener` and closed by the
first following `closer` with spaces of the same length (the masking of
`<!--...-->` and `<![CDATA[...]]>`; `[\s\S]*?` crosses line breaks).  An
unterminated opener matches nothing and is kept.  Fuel: one unit per scan
position. -/
def maskBlocksAux (opener closer : List Char) : Nat → List Char → List Char
  | 0, s => s
  | _ + 1, [] => []
  | fuel + 1, c :: rest =>
    match dropLit opener (c :: rest) with
    | some afterOpen =>
      match findLit closer afterOpen with
      | some k =>
        List.replicate (opener.length + k + closer.length) ' ' ++
          maskBlocksAux opener closer fuel
            (rest.drop (opener.length + k + closer.length - 1))
      | none => c :: maskBlocksAux opener closer fuel rest
    | none => c :: maskBlocksAux opener closer fuel rest

def maskBlocks (opener closer : List Char) (s : List Char) : List Char :=
  maskBlocksAux opener closer s.length s

/-- One recorded start-tag occurrence. -/
structure TagLoc where
  tagName : List Char
  index : Nat
  line : Nat
deriving DecidableEq, Repr

/-- The scan for `/<([a-zA-Z0-9_\-.:]+)[^>]*>/g` over the masked text:
at a `<` followed by at least one name character, the match runs to the
first later `>`; the scan resumes after a match, or one character further
after a failed position. -/
def scanTagsAux (offs : List Nat) : Nat → List Char → Nat → List TagLoc
  | 0, _, _ => []
  | _ + 1, [], _ => []
  | fuel + 1, c :: rest, pos =>
    if c = '<' then
      let nm := rest.takeWhile isNameChar
      if nm.isEmpty then scanTagsAux offs fuel rest (pos + 1)
      else
        match findGt (rest.dropWhile isNameChar) with
        | some g =>
          ⟨nm, pos, lineForOffset offs pos⟩ ::
            scanTagsAux offs fuel ((rest.dropWhile isNameChar).drop (g + 1))
              (pos + 1 + nm.length + g + 1)
        | none => scanTagsAux offs fuel rest (pos + 1)
    else scanTagsAux offs fuel rest (pos + 1)

def scanTags (offs : List Nat) (s : List Char) (pos : Nat) : List TagLoc :=
  scanTagsAux offs s.length s pos

/-- Scan the tag-occurrence list forward from the cursor for the first
entry with the given tag name; returns its position in the list and its
line. -/
def findFrom (locs : List TagLoc) (cursor : Nat) (tag : List Char) :
    Option (Nat × Nat) :=
  go cursor (locs.drop cursor)
where
  go (i : Nat) : List TagLoc → Option (Nat × Nat)
    | [] => none
    | l :: ls => if l.tagName = tag then some (i, l.line) else go (i + 1) ls

mutual

/-- The depth-first traversal of `mapElementLines`: each visited node takes
the first matching occurrence at or after the cursor (advancing it past
the match), or stays unmapped with the cursor unchanged; children are
visited in document order afterwards, threading the cursor
(the mutable `matchIndex`). -/
def annotateNode (locs : List TagLoc) : Node → Nat → Node × Nat
  | Node.mk tag _ children textContent, cursor =>
    let res := findFrom locs cursor tag
    let ln : Option Nat := res.map (fun p => p.2)
    let c0 : Nat := match res with | some p => p.1 + 1 | none => cursor
    let step := annotateList locs children c0
    (Node.mk tag ln step.1 textContent, step.2)

def annotateList (locs : List TagLoc) : List Node → Nat → List Node × Nat
  | [], cursor => ([], cursor)
  | n :: ns, cursor =>
    let r := annotateNode locs n cursor
    let rs := annotateList locs ns r.2
    (r.1 :: rs.1, rs.2)

end

/-- `mapElementLines`, returning the annotated tree: line offsets from the
split lines, comment and CDATA masking, the tag scan, and the correlating
traversal from the root with the cursor at 0. -/
def mapElementLines (xmlStr : List Char) (root : Node) : Node :=
  let offs := lineOffsets (splitLinesRN xmlStr)
  let maskedXml :=
    maskBlocks "<![CDATA[".data "]]>".data
      (maskBlocks "<!--".data "-->".data xmlStr)
  let locs := scanTags offs maskedXml 0
  (annotateNode locs root 0).1

/-! ## The orchestrator (`validateXmlWithDtd`) -/

/-- What the external `DOMParser` collaborator handed back: a document
with a `parsererror`, a document with no root element, or the root
element's tree (unannotated; the model puts `none` lines on it). -/
inductive ParseOutcome where
  | syntaxError : List Char → ParseOutcome
  | noRoot : ParseOutcome
  | root : Node → ParseOutcome

/-- The result shape handed to the caller (the timestamp comes from the
external clock collaborator and is left out of the model). -/
structure ValidationResult where
  isValid : Bool
  errors : List (List Char)
  generalComment : List Char
deriving DecidableEq

/-- Result of the zero-declarations short circuit. -/
def noDefsResult : ValidationResult :=
  ⟨false, ["No valid ELEMENT definitions found in DTD.".data],
    "DTD parsing failed or input was empty.".data⟩

/-- Result of the well-formedness short circuit. -/
def syntaxErrorResult (txt : List Char) : ValidationResult :=
  ⟨false, ["XML Syntax Error: ".data ++ txt],
    "The XML document is not well-formed.".data⟩

/-- The final assembly: `isValid` iff no diagnostics, and the summary
sentence. -/
def finalizeResult (errors : List (List Char)) : ValidationResult :=
  ⟨errors.isEmpty, errors,
    if errors.isEmpty then
      "Validation Successful. The XML strictly adheres to the DTD structure.".data
    else
      "Validation Failed. Found ".data ++ (Nat.repr errors.length).data ++
        " structural error(s).".data⟩

/-- The body of the `try` block: compile the DTD (stopping when it yields
no definitions), consult the parser outcome, correlate lines and validate
from the root. -/
def runValidation (dtd xml : List Char) (parsed : ParseOutcome) :
    ValidationResult :=
  let definitions := parseDtd dtd
  if definitions.isEmpty then noDefsResult
  else
    match parsed with
    | ParseOutcome.syntaxError txt => syntaxErrorResult txt
    | ParseOutcome.noRoot =>
      finalizeResult ["XML document has no root element.".data]
    | ParseOutcome.root root =>
      finalizeResult (validateNode definitions (mapElementLines xml root))

/-- Result of the catch-all handler for an unforeseen internal fault. -/
def internalErrorResult (msg : List Char) : ValidationResult :=
  ⟨false, ["Internal Validator Error: ".data ++ msg],
    "An unexpected error occurred during validation.".data⟩

/-- `validateXmlWithDtd` resolves with a result in every case; `fault`
models whether the surrounding runtime raised an unforeseen internal fault
during the run (`none` in normal evaluation), which the `try`/`catch`
boundary converts into `internalErrorResult`. -/
def validateXmlWithDtd (dtd xml : List Char) (parsed : ParseOutcome)
    (fault : Option (List Char)) : ValidationResult :=
  match fault with
  | some msg => internalErrorResult msg
  | none => runValidation dtd xml parsed

/-! ## Token soundness of the sentinel encoding -/

/-- An element name as the validator and the scanner can produce it:
non-empty and free of the reserved delimiter. -/
def goodName (n : List Char) : Bool :=
  !n.isEmpty && !n.contains sentinel

/-- Every name atom of the token-level pattern is a `goodName`. -/
def goodTok : TokRE → Bool
  | RegularExpression.zero => true
  | RegularExpression.epsilon => true
  | RegularExpression.char n => goodName n
  | RegularExpression.plus p q => goodTok p && goodTok q
  | RegularExpression.comp p q => goodTok p && goodTok q
  | RegularExpression.star p => goodTok p

theorem goodName_iff (n : List Char) :
    goodName n = true ↔ n ≠ [] ∧ sentinel ∉ n := by
  simp [goodName]

theorem strRE_matches (s x : List Char) :
    x ∈ (strRE s).matches' ↔ x = s := by
  induction s generalizing x with
  | nil =>
    rw [show strRE ([] : List Char) = RegularExpression.epsilon from rfl,
      RegularExpression.one_def, RegularExpression.matches'_epsilon,
      Language.mem_one]
  | cons c cs ih =>
    rw [show strRE (c :: cs) =
      RegularExpression.comp (RegularExpression.char c) (strRE cs) from rfl,
      RegularExpression.comp_def, RegularExpression.matches'_mul,
      Language.mem_mul]
    constructor
    · rintro ⟨a, ha, b, hb, rfl⟩
      rw [RegularExpression.matches'_char, Set.mem_singleton_iff] at ha
      subst ha
      have hb' := (ih b).mp hb
      simp [hb']
    · rintro rfl
      refine ⟨[c], ?_, cs, (ih cs).mpr rfl, rfl⟩
      rw [RegularExpression.matches'_char]
      exact Set.mem_singleton _

theorem childSignature_append (a b : List (List Char)) :
    childSignature (a ++ b) = childSignature a ++ childSignature b := by
  simp [childSignature]

theorem childSignature_flatten (ls : List (List (List Char))) :
    childSignature ls.flatten = (ls.map childSignature).flatten := by
  induction ls with
  | nil => rfl
  | cons l ls ih => simp [childSignature_append, ih]

/-- Everything the character-level pattern of a good token-level regular
expression accepts is the signature of a token sequence the token-level
expression accepts. -/
theorem compileTok_decode (R : TokRE) (hR : goodTok R = true) :
    ∀ s ∈ (compileTok R).matches',
      ∃ cs, (∀ c ∈ cs, goodName c = true) ∧ s = childSignature cs ∧
        cs ∈ R.matches' := by
  induction R with
  | zero => intro s hs; exact absurd hs (Language.not_mem_zero s)
  | epsilon =>
    intro s hs
    rw [show compileTok RegularExpression.epsilon = RegularExpression.epsilon
      from rfl, RegularExpression.one_def, RegularExpression.matches'_epsilon,
      Language.mem_one] at hs
    refine ⟨[], by simp, by simp [hs, childSignature], ?_⟩
    rw [RegularExpression.one_def, RegularExpression.matches'_epsilon]
    exact Language.nil_mem_one
  | char n =>
    intro s hs
    rw [show compileTok (RegularExpression.char n) = strRE (encodeName n)
      from rfl, strRE_matches] at hs
    refine ⟨[n], ?_, ?_, ?_⟩
    · simpa [goodTok] using hR
    · simp [hs, childSignature]
    · rw [RegularExpression.matches'_char]
      exact Set.mem_singleton _
  | plus p q ihp ihq =>
    intro s hs
    rw [show compileTok (RegularExpression.plus p q) =
      RegularExpression.plus (compileTok p) (compileTok q) from rfl,
      RegularExpression.plus_def, RegularExpression.matches'_add,
      Language.mem_add] at hs
    simp only [goodTok, Bool.and_eq_true] at hR
    rcases hs with hs | hs
    · obtain ⟨cs, h1, h2, h3⟩ := ihp hR.1 s hs
      refine ⟨cs, h1, h2, ?_⟩
      rw [RegularExpression.plus_def, RegularExpression.matches'_add,
        Language.mem_add]
      exact Or.inl h3
    · obtain ⟨cs, h1, h2, h3⟩ := ihq hR.2 s hs
      refine ⟨cs, h1, h2, ?_⟩
      rw [RegularExpression.plus_def, RegularExpression.matches'_add,
        Language.mem_add]
      exact Or.inr h3
  | comp p q ihp ihq =>
    intro s hs
    rw [show compileTok (RegularExpression.comp p q) =
      RegularExpression.comp (compileTok p) (compileTok q) from rfl,
      RegularExpression.comp_def, RegularExpression.matches'_mul,
      Language.mem_mul] at hs
    simp only [goodTok, Bool.and_eq_true] at hR
    obtain ⟨a, ha, b, hb, rfl⟩ := hs
    obtain ⟨cs1, g1, e1, m1⟩ := ihp hR.1 a ha
    obtain ⟨cs2, g2, e2, m2⟩ := ihq hR.2 b hb
    refine ⟨cs1 ++ cs2, ?_, ?_, ?_⟩
    · intro c hc
      rcases List.mem_append.mp hc with h | h
      exacts [g1 c h, g2 c h]
    · rw [childSignature_append, e1, e2]
    · rw [RegularExpression.comp_def, RegularExpression.matches'_mul]
      exact Language.append_mem_mul m1 m2
  | star p ihp =>
    intro s hs
    rw [show compileTok (RegularExpression.star p) =
      RegularExpression.star (compileTok p) from rfl,
      RegularExpression.matches'_star, Language.mem_kstar] at hs
    obtain ⟨L, rfl, hL⟩ := hs
    have hR' : goodTok p = true := hR
    have key : ∃ css : List (List (List Char)),
        L = css.map childSignature ∧
        (∀ cs ∈ css, (∀ c ∈ cs, goodName c = true) ∧ cs ∈ p.matches') := by
      induction L with
      | nil => exact ⟨[], by simp, by simp⟩
      | cons y ys ihL =>
        obtain ⟨cs, g, e, m⟩ := ihp hR' y (hL y (by simp))
        obtain ⟨css, hcss, hprop⟩ := ihL (fun z hz => hL z (by simp [hz]))
        refine ⟨cs :: css, by simp [hcss, e], ?_⟩
        intro cs' hcs'
        rcases List.mem_cons.mp hcs' with rfl | h
        exacts [⟨g, m⟩, hprop cs' h]
    obtain ⟨css, hcss, hprop⟩ := key
    refine ⟨css.flatten, ?_, ?_, ?_⟩
    · intro c hc
      obtain ⟨cs, hcs, hcmem⟩ := List.mem_flatten.mp hc
      exact (hprop cs hcs).1 c hcmem
    · rw [hcss, childSignature_flatten]
    · rw [RegularExpression.matches'_star]
      exact Language.join_mem_kstar (fun y hy => (hprop y hy).2)

/-- The signature of a token sequence the token-level expression accepts
is accepted by the character-level pattern. -/
theorem compileTok_encode (R : TokRE) :
    ∀ cs ∈ R.matches', childSignature cs ∈ (compileTok R).matches' := by
  induction R with
  | zero => intro cs hcs; exact absurd hcs (Language.not_mem_zero cs)
  | epsilon =>
    intro cs hcs
    rw [RegularExpression.one_def, RegularExpression.matches'_epsilon,
      Language.mem_one] at hcs
    subst hcs
    rw [show compileTok RegularExpression.epsilon = RegularExpression.epsilon
      from rfl, RegularExpression.one_def, RegularExpression.matches'_epsilon]
    exact Language.nil_mem_one
  | char n =>
    intro cs hcs
    rw [RegularExpression.matches'_char, Set.mem_singleton_iff] at hcs
    subst hcs
    rw [show compileTok (RegularExpression.char n) = strRE (encodeName n)
      from rfl, strRE_matches]
    simp [childSignature]
  | plus p q ihp ihq =>
    intro cs hcs
    rw [RegularExpression.plus_def, RegularExpression.matches'_add,
      Language.mem_add] at hcs
    rw [show compileTok (RegularExpression.plus p q) =
      RegularExpression.plus (compileTok p) (compileTok q) from rfl,
      RegularExpression.plus_def, RegularExpression.matches'_add,
      Language.mem_add]
    rcases hcs with h | h
    exacts [Or.inl (ihp cs h), Or.inr (ihq cs h)]
  | comp p q ihp ihq =>
    intro cs hcs
    rw [RegularExpression.comp_def, RegularExpression.matches'_mul,
      Language.mem_mul] at hcs
    obtain ⟨a, ha, b, hb, rfl⟩ := hcs
    rw [show compileTok (RegularExpression.comp p q) =
      RegularExpression.comp (compileTok p) (compileTok q) from rfl,
      RegularExpression.comp_def, RegularExpression.matches'_mul,
      childSignature_append]
    exact Language.append_mem_mul (ihp a ha) (ihq b hb)
  | star p ihp =>
    intro cs hcs
    rw [RegularExpression.matches'_star, Language.mem_kstar] at hcs
    obtain ⟨L, rfl, hL⟩ := hcs
    rw [show compileTok (RegularExpression.star p) =
      RegularExpression.star (compileTok p) from rfl,
      RegularExpression.matches'_star, childSignature_flatten]
    refine Language.join_mem_kstar (fun y hy => ?_)
    obtain ⟨z, hz, rfl⟩ := List.mem_map.mp hy
    exact ihp z (hL z hz)

/-- A good signature is empty or starts with the sentinel. -/
theorem childSignature_head (cs : List (List Char)) :
    childSignature cs = [] ∨ ∃ r, childSignature cs = sentinel :: r := by
  cases cs with
  | nil => exact Or.inl rfl
  | cons c cs =>
    exact Or.inr ⟨c ++ childSignature cs, by simp [childSignature, encodeName]⟩

/-- Splitting at the sentinel boundary is unambiguous: two sentinel-free
blocks followed by sentinel-headed (or empty) tails agree. -/
theorem sentinel_split {n1 n2 t1 t2 : List Char}
    (h : n1 ++ t1 = n2 ++ t2)
    (g1 : sentinel ∉ n1) (g2 : sentinel ∉ n2)
    (e1 : t1 = [] ∨ ∃ r, t1 = sentinel :: r)
    (e2 : t2 = [] ∨ ∃ r, t2 = sentinel :: r) :
    n1 = n2 ∧ t1 = t2 := by
  induction n1 generalizing n2 with
  | nil =>
    cases n2 with
    | nil => exact ⟨rfl, by simpa using h⟩
    | cons c2 m2 =>
      exfalso
      simp only [List.nil_append, List.cons_append] at h
      rcases e1 with rfl | ⟨r, rfl⟩
      · exact (List.cons_ne_nil _ _) h.symm
      · apply g2
        have hc : sentinel = c2 := by
          have := congrArg List.head? h
          simpa using this
        rw [hc]
        exact List.mem_cons_self _ _
  | cons c1 m1 ih =>
    cases n2 with
    | nil =>
      exfalso
      simp only [List.nil_append, List.cons_append] at h
      rcases e2 with rfl | ⟨r, rfl⟩
      · exact (List.cons_ne_nil _ _) h
      · apply g1
        have hc : sentinel = c1 := by
          have := congrArg List.head? h
          simpa using this.symm
        rw [hc]
        exact List.mem_cons_self _ _
    | cons c2 m2 =>
      simp only [List.cons_append, List.cons.injEq] at h
      obtain ⟨rfl, h2⟩ := h
      have g1' : sentinel ∉ m1 := fun hx => g1 (List.mem_cons_of_mem _ hx)
      have g2' : sentinel ∉ m2 := fun hx => g2 (List.mem_cons_of_mem _ hx)
      obtain ⟨hm, ht⟩ := ih h2 g1' g2'
      exact ⟨by rw [hm], ht⟩

/-- The signature map is injective on sequences of good names. -/
theorem childSignature_inj {cs1 cs2 : List (List Char)}
    (g1 : ∀ c ∈ cs1, goodName c = true) (g2 : ∀ c ∈ cs2, goodName c = true)
    (h : childSignature cs1 = childSignature cs2) : cs1 = cs2 := by
  induction cs1 generalizing cs2 with
  | nil =>
    cases cs2 with
    | nil => rfl
    | cons c2 m2 => simp [childSignature, encodeName] at h
  | cons c1 m1 ih =>
    cases cs2 with
    | nil => simp [childSignature, encodeName] at h
    | cons c2 m2 =>
      have h2 : c1 ++ childSignature m1 = c2 ++ childSignature m2 := by
        have := h
        simp only [childSignature, List.map_cons, List.flatten_cons,
          encodeName, List.cons_append, List.cons.injEq] at this
        simpa [childSignature] using this.2
      have hg1 := (goodName_iff c1).mp (g1 c1 (by simp))
      have hg2 := (goodName_iff c2).mp (g2 c2 (by simp))
      obtain ⟨hn, ht⟩ := sentinel_split h2 hg1.2 hg2.2
        (childSignature_head m1) (childSignature_head m2)
      have htail := ih (fun c hc => g1 c (by simp [hc]))
        (fun c hc => g2 c (by simp [hc])) ht
      simp [hn, htail]

/-- The heart of the sentinel design: on good names, character-level
acceptance of a signature coincides with token-level acceptance of the
name sequence. -/
theorem compileTok_token_exact (R : TokRE) (hR : goodTok R = true)
    (cs : List (List Char)) (hcs : ∀ c ∈ cs, goodName c = true) :
    childSignature cs ∈ (compileTok R).matches' ↔ cs ∈ R.matches' := by
  constructor
  · intro h
    obtain ⟨ds, gds, hsig, hds⟩ := compileTok_decode R hR _ h
    have := childSignature_inj hcs gds hsig
    rwa [this]
  · intro h
    exact compileTok_encode R cs h

/-! ## Structure of the validator's diagnostic list -/

theorem validateNode_mk (defs : List (List Char × DtdDefinition))
    (t : List Char) (l : Option Nat) (cs : List Node) (tx : List Char) :
    validateNode defs (Node.mk t l cs tx) =
      nodeOwnDiags defs (Node.mk t l cs tx) ++
        (match dtdLookup defs t with
         | none => []
         | some _ => cs.flatMap (validateNode defs)) := by
  rw [validateNode]
  cases hd : dtdLookup defs t with
  | none => simp
  | some d => rw [validateNodeList_flatMap]

mutual

/-- The nodes `validateNode` actually visits, in visit order: the node
itself, then (only when its tag is declared) the visited subtrees of its
children in document order. -/
def visitedNodes (defs : List (List Char × DtdDefinition)) : Node →
    List Node
  | Node.mk t l cs tx =>
    Node.mk t l cs tx ::
      (match dtdLookup defs t with
       | none => []
       | some _ => visitedNodesList defs cs)

def visitedNodesList (defs : List (List Char × DtdDefinition)) :
    List Node → List Node
  | [] => []
  | n :: ns => visitedNodes defs n ++ visitedNodesList defs ns

end

theorem visitedNodesList_flatMap (defs : List (List Char × DtdDefinition))
    (ns : List Node) :
    visitedNodesList defs ns = ns.flatMap (visitedNodes defs) := by
  induction ns with
  | nil => rfl
  | cons n ns ih => simp [visitedNodesList, ih]

theorem visitedNodes_mk (defs : List (List Char × DtdDefinition))
    (t : List Char) (l : Option Nat) (cs : List Node) (tx : List Char) :
    visitedNodes defs (Node.mk t l cs tx) =
      Node.mk t l cs tx ::
        (match dtdLookup defs t with
         | none => []
         | some _ => cs.flatMap (visitedNodes defs)) := by
  rw [visitedNodes]
  cases hd : dtdLookup defs t with
  | none => rfl
  | some d => rw [visitedNodesList_flatMap]

theorem validateNode_flatMap_visited
    (defs : List (List Char × DtdDefinition)) :
    ∀ (N : Nat) (n : Node), sizeOf n ≤ N →
      validateNode defs n = (visitedNodes defs n).flatMap (nodeOwnDiags defs) := by
  intro N
  induction N with
  | zero =>
    intro n hn
    cases n with
    | mk t l cs tx => simp [Node.mk.sizeOf_spec] at hn
  | succ N ih =>
    intro n hn
    cases n with
    | mk t l cs tx =>
      rw [validateNode_mk, visitedNodes_mk]
      cases h : dtdLookup defs t with
      | none => simp
      | some d =>
        simp only [List.flatMap_cons]
        congr 1
        rw [List.flatMap_assoc]
        have hsz : ∀ c ∈ cs, sizeOf c ≤ N := by
          intro c hc
          have h1 := List.sizeOf_lt_of_mem hc
          have h2 : sizeOf (Node.mk t l cs tx) ≤ N + 1 := hn
          simp only [Node.mk.sizeOf_spec] at h2
          omega
        clear hn
        induction cs with
        | nil => rfl
        | cons c cs ihc =>
          simp only [List.flatMap_cons]
          rw [ih c (hsz c (by simp)),
            ihc (fun c' hc' => hsz c' (by simp [hc']))]

/-- C4's content as an equation: the diagnostic list of a subtree is the
per-node diagnostics concatenated over the depth-first pre-order visit
sequence. -/
theorem validateNode_preorder (defs : List (List Char × DtdDefinition))
    (n : Node) :
    validateNode defs n = (visitedNodes defs n).flatMap (nodeOwnDiags defs) :=
  validateNode_flatMap_visited defs (sizeOf n) n le_rfl

/-! ## The claims -/

/-- C3: for a node whose tag name has no entry in the definition table,
validation emits exactly the one undeclared-element diagnostic for that
node and nothing else — in particular no diagnostic for any node of its
subtree, whatever the descendants contain. -/
theorem claim_C3_undeclared_no_recursion
    (defs : List (List Char × DtdDefinition)) (n : Node)
    (h : dtdLookup defs n.tagName = none) :
    validateNode defs n =
      [diagMark n.line none ++ " Element <".data ++ n.tagName ++
        "> is used in XML but not defined in DTD.".data] := by
  cases n with
  | mk t l cs tx =>
    simp only [Node.tagName] at h
    rw [validateNode_mk, h]
    simp [nodeOwnDiags, h, Node.tagName, Node.line]

/-- Witness for C3: the DTD declares only `A`; a `D` node with a child is
reported once and its subtree is silent. -/
theorem claim_C3_witness :
    dtdLookup (parseDtd "<!ELEMENT A (B,C)>".data) "D".data = none ∧
    validateNode (parseDtd "<!ELEMENT A (B,C)>".data)
        (Node.mk "D".data (some 2) [Node.mk "B".data (some 2) [] []] []) =
      [diagMark (some 2) none ++ " Element <".data ++ "D".data ++
        "> is used in XML but not defined in DTD.".data] :=
  ⟨by rfl, claim_C3_undeclared_no_recursion _ _ (by rfl)⟩

/-- C4: the diagnostic list of a validated tree is exactly the per-node
diagnostics concatenated along the depth-first pre-order visit sequence
(children in document order), so a node's own diagnostics precede its
descendants' and an earlier child's subtree precedes a later child's. -/
theorem claim_C4_preorder_diagnostics
    (defs : List (List Char × DtdDefinition)) (n : Node) :
    validateNode defs n = (visitedNodes defs n).flatMap (nodeOwnDiags defs) :=
  validateNode_preorder defs n

/-- C5: when the DTD text yields zero element definitions the run
terminates with the fixed single-error invalid result, for every XML text
and every parser outcome (so neither the XML text nor its parse can
influence the result). -/
theorem claim_C5_zero_definitions (dtd xml : List Char)
    (parsed : ParseOutcome) (h : parseDtd dtd = []) :
    validateXmlWithDtd dtd xml parsed none = noDefsResult ∧
    noDefsResult.errors = ["No valid ELEMENT definitions found in DTD.".data] ∧
    noDefsResult.isValid = false := by
  refine ⟨?_, rfl, rfl⟩
  simp [validateXmlWithDtd, runValidation, h]

/-- Witness for C5: a DTD with no declarations against well-formed XML. -/
theorem claim_C5_witness :
    parseDtd "just some text".data = [] ∧
    validateXmlWithDtd "just some text".data "<A/>".data
        (ParseOutcome.root (Node.mk "A".data none [] [])) none = noDefsResult ∧
    noDefsResult.errors = ["No valid ELEMENT definitions found in DTD.".data] ∧
    noDefsResult.isValid = false :=
  ⟨by rfl, claim_C5_zero_definitions _ _ _ (by rfl)⟩

/-- C6: the orchestrator always resolves with a `ValidationResult`: with no
internal fault it returns the pipeline's result, and any internal fault is
converted at the boundary into the single-error internal-fault result that
describes it.  (The fault input models the `catch`-all; the promise only
ever resolves.) -/
theorem claim_C6_boundary_totality (dtd xml : List Char)
    (parsed : ParseOutcome) (fault : Option (List Char)) :
    (fault = none →
      validateXmlWithDtd dtd xml parsed fault = runValidation dtd xml parsed) ∧
    (∀ msg, fault = some msg →
      validateXmlWithDtd dtd xml parsed fault = internalErrorResult msg ∧
      internalErrorResult msg =
        ⟨false, ["Internal Validator Error: ".data ++ msg],
          "An unexpected error occurred during validation.".data⟩ ∧
      (internalErrorResult msg).errors.length = 1) := by
  constructor
  · rintro rfl
    rfl
  · rintro msg rfl
    exact ⟨rfl, rfl, rfl⟩

/-- Witness for C6: a concrete fault is caught and converted. -/
theorem claim_C6_witness :
    validateXmlWithDtd "<!ELEMENT A EMPTY>".data "<A/>".data
        (ParseOutcome.root (Node.mk "A".data none [] []))
        (some "stack depth exceeded".data) =
      internalErrorResult "stack depth exceeded".data ∧
    internalErrorResult "stack depth exceeded".data =
      ⟨false, ["Internal Validator Error: ".data ++ "stack depth exceeded".data,
        ],
        "An unexpected error occurred during validation.".data⟩ ∧
    (internalErrorResult "stack depth exceeded".data).errors.length = 1 :=
  (claim_C6_boundary_totality _ _ _ _).2 _ rfl

/-- C10: for a node whose tag name has a definition, `validateNode` is the
node's own diagnostics followed by the recursion over all of its children
in document order — also when the node itself already violated its own
content model, so descendants' diagnostics are still reported. -/
theorem claim_C10_recurses_into_children
    (defs : List (List Char × DtdDefinition)) (n : Node) (d : DtdDefinition)
    (h : dtdLookup defs n.tagName = some d) :
    validateNode defs n =
      nodeOwnDiags defs n ++ n.children.flatMap (validateNode defs) := by
  cases n with
  | mk t l cs tx =>
    simp only [Node.tagName] at h
    rw [validateNode_mk, h]
    simp [Node.children]

/-- C1 fails as stated: in `<!ELEMENT x a|c>` the content spec `a|c`
compiles to type CHILDREN with pattern `^(?:\x01a)|(?:\x01c)$`; because
`|` has lowest precedence, the trailing `$` binds only to the last
alternative, so the occurrence of name `a` in the model matches a mere
leading token of the subject, and the child sequence `[ab]` — `a` being a
proper strict initial segment of `ab` — satisfies the model. -/
theorem claim_C1_counterexample :
    (dtdLookup (parseDtd "<!ELEMENT x a|c>".data) "x".data).map
        (fun d => d.type) = some ContentType.CHILDREN ∧
    (dtdLookup (parseDtd "<!ELEMENT x a|c>".data) "x".data).map
        (fun d => d.regex) =
      some (some [RegularExpression.char "a".data,
        RegularExpression.char "c".data]) ∧
    jsRegexTest [RegularExpression.char "a".data,
        RegularExpression.char "c".data]
      (childSignature ["ab".data]) = true ∧
    "ab".data = "a".data ++ "b".data ∧
    "a".data ≠ "ab".data :=
  ⟨rfl, rfl, rfl, rfl, by decide⟩

/-- C1 (amended): for every CHILDREN matcher whose compiled pattern has a
single top-level alternative (in particular every parenthesised content
spec, which is the only form DTD grammar allows), both anchors apply and
the matcher accepts a child sequence exactly when the sequence of whole
child names is in the token-level content model — so a name that is a
proper substring of another never matches as part of it. -/
theorem claim_C1_whole_token_matching (spec : List Char) (r : TokRE)
    (cs : List (List Char))
    (_hp : convertSpecToRegex spec = some [r])
    (hr : goodTok r = true)
    (hcs : ∀ c ∈ cs, goodName c = true) :
    jsRegexTest [r] (childSignature cs) = true ↔ cs ∈ r.matches' := by
  have step1 : jsRegexTest [r] (childSignature cs) =
      (compileTok r).rmatch (childSignature cs) := rfl
  rw [step1]
  exact Iff.trans (RegularExpression.rmatch_iff_matches' _ _)
    (compileTok_token_exact r hr cs hcs)

/-- Witness for C1 (amended): the spec `(a,b)` matches exactly the child
sequence of the two whole names. -/
theorem claim_C1_witness :
    convertSpecToRegex "(a,b)".data =
      some [RegularExpression.plus RegularExpression.zero
        (RegularExpression.comp (RegularExpression.char "a".data)
          (RegularExpression.char "b".data))] ∧
    goodTok (RegularExpression.plus RegularExpression.zero
      (RegularExpression.comp (RegularExpression.char "a".data)
        (RegularExpression.char "b".data))) = true ∧
    (jsRegexTest [RegularExpression.plus RegularExpression.zero
        (RegularExpression.comp (RegularExpression.char "a".data)
          (RegularExpression.char "b".data))]
        (childSignature ["a".data, "b".data]) = true ↔
      ["a".data, "b".data] ∈ (RegularExpression.plus RegularExpression.zero
        (RegularExpression.comp (RegularExpression.char "a".data)
          (RegularExpression.char "b".data))).matches') :=
  ⟨rfl, rfl,
    claim_C1_whole_token_matching "(a,b)".data _ _ rfl rfl (by decide)⟩

/-- C2 fails as stated on its last clause: the spec `(a` of
`<!ELEMENT x (a>` is none of the four special forms, so the claim says it
yields type CHILDREN; matcher compilation throws on the unterminated
group, and the compiler instead degrades the element to ANY. -/
theorem claim_C2_counterexample :
    extractElements "<!ELEMENT x (a>".data = [("x".data, "(a".data, 1)] ∧
    removeWs (stripComments (jsTrim "(a".data)) = "(a".data ∧
    "(a".data ≠ "EMPTY".data ∧
    "(a".data ≠ "ANY".data ∧
    "(a".data ≠ "(#PCDATA)".data ∧
    "(#PCDATA".data.isPrefixOf "(a".data = false ∧
    convertSpecToRegex "(a".data = none ∧
    (buildDef "(a".data 1).type = ContentType.ANY ∧
    (buildDef "(a".data 1).type ≠ ContentType.CHILDREN ∧
    (dtdLookup (parseDtd "<!ELEMENT x (a>".data) "x".data).map
      (fun d => d.type) = some ContentType.ANY :=
  ⟨rfl, rfl, by decide, by decide, by decide, rfl, rfl, rfl, by decide, rfl⟩

/-- C2 (amended): the compiler classifies on the whitespace-free form of
the comment-stripped spec in priority order — exact `EMPTY`, exact `ANY`,
exact `(#PCDATA)`, a spec starting with `(#PCDATA` giving MIXED with the
allowed children cut out between `(#PCDATA|` and the trailing `)` or `)*`
and split on `|` — and every remaining spec yields CHILDREN with a matcher
compiled from the original (not whitespace-stripped) spec when that
compilation succeeds, degrading to ANY when it fails.  The last conjunct:
`parseDtd` is exactly this per extracted declaration. -/
theorem claim_C2_classification (raw : List Char) (line : Nat) :
    (removeWs (stripComments (jsTrim raw)) = "EMPTY".data →
      buildDef raw line =
        ⟨ContentType.EMPTY, [], none, stripComments (jsTrim raw), line⟩) ∧
    (removeWs (stripComments (jsTrim raw)) ≠ "EMPTY".data →
      removeWs (stripComments (jsTrim raw)) = "ANY".data →
      buildDef raw line =
        ⟨ContentType.ANY, [], none, stripComments (jsTrim raw), line⟩) ∧
    (removeWs (stripComments (jsTrim raw)) ≠ "EMPTY".data →
      removeWs (stripComments (jsTrim raw)) ≠ "ANY".data →
      removeWs (stripComments (jsTrim raw)) = "(#PCDATA)".data →
      buildDef raw line =
        ⟨ContentType.PCDATA, [], none, stripComments (jsTrim raw), line⟩) ∧
    (removeWs (stripComments (jsTrim raw)) ≠ "EMPTY".data →
      removeWs (stripComments (jsTrim raw)) ≠ "ANY".data →
      removeWs (stripComments (jsTrim raw)) ≠ "(#PCDATA)".data →
      "(#PCDATA".data.isPrefixOf (removeWs (stripComments (jsTrim raw))) =
        true →
      (buildDef raw line).type = ContentType.MIXED ∧
      (buildDef raw line).regex = none ∧
      (buildDef raw line).rawSpec = stripComments (jsTrim raw) ∧
      (buildDef raw line).line = line ∧
      (∀ x, x ∈ (buildDef raw line).allowedElements ↔
        x ∈ splitBar (mixedContent (removeWs (stripComments (jsTrim raw)))))) ∧
    (removeWs (stripComments (jsTrim raw)) ≠ "EMPTY".data →
      removeWs (stripComments (jsTrim raw)) ≠ "ANY".data →
      removeWs (stripComments (jsTrim raw)) ≠ "(#PCDATA)".data →
      "(#PCDATA".data.isPrefixOf (removeWs (stripComments (jsTrim raw))) =
        false →
      (∀ pat, convertSpecToRegex (stripComments (jsTrim raw)) = some pat →
        buildDef raw line =
          ⟨ContentType.CHILDREN, [], some pat, stripComments (jsTrim raw),
            line⟩) ∧
      (convertSpecToRegex (stripComments (jsTrim raw)) = none →
        buildDef raw line =
          ⟨ContentType.ANY, [], none, stripComments (jsTrim raw), line⟩)) ∧
    (∀ dtd, parseDtd dtd =
      (extractElements dtd).map (fun d => (d.1, buildDef d.2.1 d.2.2))) := by
  refine ⟨?_, ?_, ?_, ?_, ?_, fun dtd => rfl⟩
  · intro h1
    simp [buildDef, h1]
  · intro h1 h2
    simp [buildDef, h1, h2]
  · intro h1 h2 h3
    simp [buildDef, h1, h2, h3]
  · intro h1 h2 h3 h4
    refine ⟨?_, ?_, ?_, ?_, ?_⟩ <;>
      simp [buildDef, h1, h2, h3, h4, mem_dedupFirst]
  · intro h1 h2 h3 h4
    constructor
    · intro pat hpat
      simp [buildDef, h1, h2, h3, h4, hpat]
    · intro hpat
      simp [buildDef, h1, h2, h3, h4, hpat]

/-- Witness for C2: the priority classification at concrete inputs — an
`EMPTY` declaration and the ANY-degraded `(a`. -/
theorem claim_C2_witness :
    buildDef "EMPTY".data 3 =
      ⟨ContentType.EMPTY, [], none, "EMPTY".data, 3⟩ ∧
    buildDef "(a".data 1 =
      ⟨ContentType.ANY, [], none, "(a".data, 1⟩ :=
  ⟨(claim_C2_classification "EMPTY".data 3).1 (by decide),
    ((claim_C2_classification "(a".data 1).2.2.2.2.1 (by decide) (by decide)
      (by decide) (by decide)).2 rfl⟩

/-- C7 is right and the code is wrong: the validator never normalizes line
endings, and the correlator's offset table assumes one character per line
break; on the same logical document the undeclared-element diagnostic for
`a` carries `[XML: 7]` with CRLF line endings but `[XML: 6]` with LF.
(The supplied tree is the parser collaborator's output, whose text content
the XML parser normalizes to LF in both cases.) -/
theorem claim_C7_crlf_line_divergence :
    (runValidation "<!ELEMENT r (a)>".data
        "<r>\r\n\r\n\r\n\r\n\r\n<a/>\r\n</r>".data
        (ParseOutcome.root (Node.mk "r".data none
          [Node.mk "a".data none [] []] "\n\n\n\n\n\n".data))).errors =
      ["[XML: 7] Element <a> is used in XML but not defined in DTD.".data] ∧
    (runValidation "<!ELEMENT r (a)>".data
        "<r>\n\n\n\n\n<a/>\n</r>".data
        (ParseOutcome.root (Node.mk "r".data none
          [Node.mk "a".data none [] []] "\n\n\n\n\n\n".data))).errors =
      ["[XML: 6] Element <a> is used in XML but not defined in DTD.".data] ∧
    "[XML: 7] Element <a> is used in XML but not defined in DTD.".data ≠
      "[XML: 6] Element <a> is used in XML but not defined in DTD.".data :=
  ⟨rfl, rfl, by decide⟩

theorem splitLinesRN_go_ne_nil :
    ∀ (N : Nat) (s : List Char) (acc : List Char), s.length ≤ N →
      splitLinesRN.go acc s ≠ [] := by
  intro N
  induction N with
  | zero =>
    intro s acc hs
    cases s with
    | nil => simp [splitLinesRN.go]
    | cons c rest => simp at hs
  | succ N ih =>
    intro s acc hs
    match s with
    | [] => simp [splitLinesRN.go]
    | [c] =>
      rw [splitLinesRN.go]
      split <;> simp
    | c :: c2 :: rest2 =>
      rw [splitLinesRN.go]
      simp only [List.length_cons] at hs
      split
      · split <;> simp
      · split <;> simp
        exact ih (c2 :: rest2) (c :: acc) (by simp; omega)

theorem lineOfIndex_pos (text : List Char) (idx : Nat) :
    lineOfIndex text idx ≠ 0 := by
  unfold lineOfIndex splitLinesRN
  intro h
  rw [List.length_eq_zero] at h
  exact splitLinesRN_go_ne_nil (text.take idx).length (text.take idx) []
    le_rfl h

theorem extractAux_line_pos :
    ∀ (fuel : Nat) (s : List Char) (pos : Nat) (text : List Char)
      (decl : List Char × List Char × Nat),
      decl ∈ extractElementsAux fuel s pos text → decl.2.2 ≠ 0 := by
  intro fuel
  induction fuel with
  | zero =>
    intro s pos text decl h
    simp [extractElementsAux] at h
  | succ fuel ih =>
    intro s pos text decl h
    cases s with
    | nil => simp [extractElementsAux] at h
    | cons c tail =>
      simp only [extractElementsAux] at h
      cases htry : tryElementAt (c :: tail) with
      | some r =>
        rcases r with ⟨nm, spec, len⟩
        rw [htry] at h
        simp only [List.mem_cons] at h
        rcases h with rfl | h
        · exact lineOfIndex_pos text pos
        · exact ih _ _ _ _ h
      | none =>
        rw [htry] at h
        exact ih _ _ _ _ h

theorem extractElements_line_pos (dtd : List Char)
    (decl : List Char × List Char × Nat) (h : decl ∈ extractElements dtd) :
    decl.2.2 ≠ 0 :=
  extractAux_line_pos _ _ _ _ _ h

theorem buildDef_line (raw : List Char) (line : Nat) :
    (buildDef raw line).line = line := by
  simp only [buildDef]
  repeat' split
  all_goals rfl

theorem ownTypeErrors_marked (mark tag : List Char) (d : DtdDefinition)
    (children : List Node) (tx : List Char) (e : List Char)
    (h : e ∈ ownTypeErrors mark tag d children tx) :
    ∃ rest, e = mark ++ rest := by
  rcases d with ⟨ty, ae, rx, rs, ln⟩
  cases ty with
  | EMPTY =>
    simp only [ownTypeErrors] at h
    split at h
    · rw [List.mem_singleton] at h
      exact ⟨_, by simpa [List.append_assoc] using h⟩
    · exact absurd h (List.not_mem_nil e)
  | ANY =>
    simp only [ownTypeErrors] at h
    exact absurd h (List.not_mem_nil e)
  | PCDATA =>
    simp only [ownTypeErrors] at h
    split at h
    · rw [List.mem_singleton] at h
      exact ⟨_, by simpa [List.append_assoc] using h⟩
    · exact absurd h (List.not_mem_nil e)
  | MIXED =>
    simp only [ownTypeErrors] at h
    rw [List.mem_filterMap] at h
    obtain ⟨c, _, heq⟩ := h
    split at heq
    · exact absurd heq (by simp)
    · rw [Option.some.injEq] at heq
      exact ⟨_, by simpa [List.append_assoc] using heq.symm⟩
  | CHILDREN =>
    simp only [ownTypeErrors] at h
    rw [List.mem_append] at h
    rcases h with h | h
    · split at h
      · rw [List.mem_singleton] at h
        exact ⟨_, by simpa [List.append_assoc] using h⟩
      · exact absurd h (List.not_mem_nil e)
    · rcases rx with _ | pat
      · simp at h
      · simp only at h
        split at h
        · exact absurd h (List.not_mem_nil e)
        · rw [List.mem_singleton] at h
          exact ⟨_, by simpa [List.append_assoc] using h⟩

theorem nodeOwnDiags_marked (defs : List (List Char × DtdDefinition))
    (m : Node) (e : List Char) (h : e ∈ nodeOwnDiags defs m) :
    ∃ rest, e = diagMark m.line (dtdLookup defs m.tagName) ++ rest := by
  rcases m with ⟨t, l, cs, tx⟩
  simp only [nodeOwnDiags, Node.tagName, Node.line] at h ⊢
  cases hd : dtdLookup defs t with
  | none =>
    rw [hd] at h
    simp only at h
    rw [List.mem_singleton] at h
    exact ⟨_, by simpa [List.append_assoc] using h⟩
  | some d =>
    rw [hd] at h
    simp only at h
    exact ownTypeErrors_marked _ _ _ _ _ _ h

/-- C8: every per-node structural diagnostic is the node's location marker
block followed by free text, where the marker block opens with
`[XML: <line>]` (the resolved line, or `?` for an unmapped node) and
continues with `[DTD: <line>]` exactly when the node's tag has a
definition (definition lines from `parseDtd` are 1-based, hence never the
falsy 0); the four fatal diagnostics of the orchestrator carry no marker —
they do not even open with a bracket. -/
theorem claim_C8_location_markers :
    (∀ (defs : List (List Char × DtdDefinition)) (n : Node) (e : List Char),
      e ∈ validateNode defs n →
      ∃ m rest, m ∈ visitedNodes defs n ∧
        e = diagMark m.line (dtdLookup defs m.tagName) ++ rest) ∧
    (∀ (ln : Option Nat) (d : DtdDefinition), d.line ≠ 0 →
      diagMark ln (some d) =
        "[XML: ".data ++ lineText ln ++ "] [DTD: ".data ++
          (Nat.repr d.line).data ++ "]".data) ∧
    (∀ ln : Option Nat,
      diagMark ln none = "[XML: ".data ++ lineText ln ++ "]".data) ∧
    lineText none = "?".data ∧
    (∀ dtd : List Char, ∀ p ∈ parseDtd dtd, p.2.line ≠ 0) ∧
    (∀ e ∈ noDefsResult.errors, e.head? ≠ some '[') ∧
    (∀ txt : List Char, ∀ e ∈ (syntaxErrorResult txt).errors,
      e.head? ≠ some '[') ∧
    (∀ e ∈ (finalizeResult ["XML document has no root element.".data]).errors,
      e.head? ≠ some '[') ∧
    (∀ msg : List Char, ∀ e ∈ (internalErrorResult msg).errors,
      e.head? ≠ some '[') := by
  refine ⟨?_, ?_, ?_, rfl, ?_, ?_, ?_, ?_, ?_⟩
  · intro defs n e he
    rw [validateNode_preorder, List.mem_flatMap] at he
    obtain ⟨m, hm, he⟩ := he
    obtain ⟨rest, hrest⟩ := nodeOwnDiags_marked defs m e he
    exact ⟨m, rest, hm, hrest⟩
  · intro ln d hd
    simp [diagMark, hd]
  · intro ln
    simp [diagMark]
  · intro dtd p hp
    rw [parseDtd, List.mem_map] at hp
    obtain ⟨decl, hdecl, rfl⟩ := hp
    rw [buildDef_line]
    exact extractElements_line_pos dtd decl hdecl
  · intro e he
    rw [show noDefsResult.errors =
      ["No valid ELEMENT definitions found in DTD.".data] from rfl,
      List.mem_singleton] at he
    rw [he]
    decide
  · intro txt e he
    rw [show (syntaxErrorResult txt).errors =
      ["XML Syntax Error: ".data ++ txt] from rfl,
      List.mem_singleton] at he
    rw [he]
    show some 'X' ≠ some '['
    decide
  · intro e he
    rw [show (finalizeResult ["XML document has no root element.".data]).errors
      = ["XML document has no root element.".data] from rfl,
      List.mem_singleton] at he
    rw [he]
    decide
  · intro msg e he
    rw [show (internalErrorResult msg).errors =
      ["Internal Validator Error: ".data ++ msg] from rfl,
      List.mem_singleton] at he
    rw [he]
    show some 'I' ≠ some '['
    decide

/-- Witness for C8: the two diagnostics of an EMPTY element with an
undeclared child open with their marker blocks. -/
theorem claim_C8_witness :
    ("[XML: 1] [DTD: 1] Element <X> is declared EMPTY but contains content.".data
        ∈ validateNode (parseDtd "<!ELEMENT X EMPTY>".data)
          (Node.mk "X".data (some 1) [Node.mk "Y".data (some 4) [] []] [])) ∧
    (∃ m rest,
      m ∈ visitedNodes (parseDtd "<!ELEMENT X EMPTY>".data)
        (Node.mk "X".data (some 1) [Node.mk "Y".data (some 4) [] []] []) ∧
      "[XML: 1] [DTD: 1] Element <X> is declared EMPTY but contains content.".data
        = diagMark m.line
            (dtdLookup (parseDtd "<!ELEMENT X EMPTY>".data) m.tagName) ++ rest) :=
  ⟨by decide,
    claim_C8_location_markers.1 (parseDtd "<!ELEMENT X EMPTY>".data)
      (Node.mk "X".data (some 1) [Node.mk "Y".data (some 4) [] []] [])
      _ (by decide)⟩

/-- C9: a declaration whose content spec reaches matcher compilation and
fails there degrades to an unconstrained ANY definition, and `parseDtd`
builds every extracted declaration independently, so the other
declarations of the DTD are compiled and enforced unchanged — a malformed
declaration never aborts the whole compile. -/
theorem claim_C9_malformed_spec_isolation :
    (∀ dtd, parseDtd dtd =
      (extractElements dtd).map (fun d => (d.1, buildDef d.2.1 d.2.2))) ∧
    (∀ raw line,
      removeWs (stripComments (jsTrim raw)) ≠ "EMPTY".data →
      removeWs (stripComments (jsTrim raw)) ≠ "ANY".data →
      removeWs (stripComments (jsTrim raw)) ≠ "(#PCDATA)".data →
      "(#PCDATA".data.isPrefixOf (removeWs (stripComments (jsTrim raw))) =
        false →
      convertSpecToRegex (stripComments (jsTrim raw)) = none →
      buildDef raw line =
        ⟨ContentType.ANY, [], none, stripComments (jsTrim raw), line⟩) := by
  constructor
  · intro dtd
    rfl
  · intro raw line h1 h2 h3 h4 h5
    simp [buildDef, h1, h2, h3, h4, h5]

/-- Witness for C9: in `<!ELEMENT a (b*>` + `<!ELEMENT r (s)>`, the first
spec `(b*` fails compilation and degrades to ANY while `r` keeps its
CHILDREN matcher and is fully enforced (its bad child yields the
structural diagnostic plus the child's own). -/
theorem claim_C9_witness :
    convertSpecToRegex (stripComments (jsTrim "(b*".data)) = none ∧
    buildDef "(b*".data 1 =
      ⟨ContentType.ANY, [], none, stripComments (jsTrim "(b*".data), 1⟩ ∧
    (dtdLookup (parseDtd "<!ELEMENT a (b*>\n<!ELEMENT r (s)>".data)
        "a".data).map (fun d => d.type) = some ContentType.ANY ∧
    (dtdLookup (parseDtd "<!ELEMENT a (b*>\n<!ELEMENT r (s)>".data)
        "r".data).map (fun d => d.type) = some ContentType.CHILDREN ∧
    List.length (validateNode (parseDtd "<!ELEMENT a (b*>\n<!ELEMENT r (s)>".data)
        (Node.mk "r".data (some 2) [Node.mk "q".data (some 2) [] []] [])) = 2 :=
  ⟨rfl,
    claim_C9_malformed_spec_isolation.2 "(b*".data 1 (by decide) (by decide)
      (by decide) (by decide) rfl,
    rfl, rfl, rfl⟩

/-- Witness for C10: an `X` declared EMPTY that contains an undeclared
child is reported itself and still has its child visited and reported. -/
theorem claim_C10_witness :
    dtdLookup (parseDtd "<!ELEMENT X EMPTY>".data) "X".data =
      some ⟨ContentType.EMPTY, [], none, "EMPTY".data, 1⟩ ∧
    validateNode (parseDtd "<!ELEMENT X EMPTY>".data)
        (Node.mk "X".data (some 1) [Node.mk "Y".data (some 1) [] []] []) =
      nodeOwnDiags (parseDtd "<!ELEMENT X EMPTY>".data)
          (Node.mk "X".data (some 1) [Node.mk "Y".data (some 1) [] []] []) ++
        [Node.mk "Y".data (some 1) [] []].flatMap
          (validateNode (parseDtd "<!ELEMENT X EMPTY>".data)) ∧
    (validateNode (parseDtd "<!ELEMENT X EMPTY>".data)
        (Node.mk "X".data (some 1) [Node.mk "Y".data (some 1) [] []] [])).length
      = 2 :=
  ⟨by rfl,
    claim_C10_recurses_into_children _ _
      ⟨ContentType.EMPTY, [], none, "EMPTY".data, 1⟩ (by rfl),
    by rfl⟩

end XmlValidator
